import Mathlib

/-!
Shallow embedding of the ATAP animation editor core (src/src/gui/canvas.py and
src/src/gui/frame_manager.py) for checking the natural-language specification.

Conventions of the embedding:
* `QImage` pixels become a total function `Pt → Color` together with the
  stored `width`/`height`; all reads and writes performed by the program are
  in bounds, so values outside the bounds are immaterial.
* Python's value copies (`image.copy()`) are identities here, since Lean data
  is immutable; aliasing subtleties of the source disappear under value
  semantics, which is exactly what `.copy()` is used to establish.
* Python lists used as stacks (`undo_stack`, `redo_stack`, the flood-fill
  work stack) are Lean lists with the TOP at the HEAD: Python `append`/`pop`
  act at the end of the list, so Python's last element is our head, and
  Python `pop(0)` (drop the oldest) is our `dropLast`.
* The `while stack:` loops of `fill_at` and `fill_gradient` terminate because
  every iteration pops one element and pixels are never visited twice; they
  are embedded as structurally recursive functions on a fuel argument, with
  fuel `1 + 5 * width * height`, which exceeds the largest possible number of
  iterations (each visit pushes at most four elements and there are at most
  `width * height` visits, so pops never exceed `1 + 4 * width * height`).
  The correctness proofs below establish that this fuel is never exhausted.
* Qt widget mutations (`self.update()`, cursors, list-widget items, signal
  emissions) have no bearing on the claims and are omitted; fields of
  `Canvas` that no claim touches (`brush_size`, `drawing`, `last_point`,
  `current_tool`, eraser settings) are likewise omitted.
-/

/-- An RGBA color, as a `QColor` value (channels 0-255; the bound is never
needed by the claims, so channels are plain naturals). -/
structure Color where
  r : Nat
  g : Nat
  b : Nat
  a : Nat
deriving DecidableEq, Repr

/-- `Qt.white`, the canvas background. -/
def Color.white : Color := ⟨255, 255, 255, 255⟩

/-- `Qt.black`, the default brush color. -/
def Color.black : Color := ⟨0, 0, 0, 255⟩

/-- `Qt.red`, the default gradient start color. -/
def Color.red : Color := ⟨255, 0, 0, 255⟩

/-- `Qt.blue`, the default gradient end color. -/
def Color.blue : Color := ⟨0, 0, 255, 255⟩

/-- A pixel coordinate `(x, y)`. Coordinates are integers because the
flood-fill loops of the source form `cx + dx`, `cy + dy` before checking
bounds, so intermediate coordinates can be negative. -/
abbrev Pt := Int × Int

/-- A raster bitmap (`QImage`): a width, a height, and the pixel contents. -/
structure Bitmap where
  width : Nat
  height : Nat
  pix : Pt → Color

instance : Inhabited Bitmap := ⟨⟨0, 0, fun _ => Color.white⟩⟩

/-- The bounds check `0 <= x < width and 0 <= y < height` used by
`fill_at` and `fill_gradient`. -/
def Bitmap.inBounds (b : Bitmap) (p : Pt) : Prop :=
  0 ≤ p.1 ∧ p.1 < (b.width : Int) ∧ 0 ≤ p.2 ∧ p.2 < (b.height : Int)

instance (b : Bitmap) (p : Pt) : Decidable (b.inBounds p) := by
  unfold Bitmap.inBounds; infer_instance

/-- Writing one pixel (`painter.drawPoint` / one 1×1 rect of `fillPath`);
Qt clips drawing to the image bounds. -/
def Bitmap.setPix (b : Bitmap) (p : Pt) (c : Color) : Bitmap :=
  if b.inBounds p then { b with pix := Function.update b.pix p c } else b

/-- A blank `QImage(w, h)` filled with white. -/
def Bitmap.blank (w h : Nat) : Bitmap := ⟨w, h, fun _ => Color.white⟩

/-- The four neighbor offsets `[(0, 1), (1, 0), (0, -1), (-1, 0)]` applied to
a point, in the iteration order of the source. -/
def neighbors (p : Pt) : List Pt :=
  [(p.1, p.2 + 1), (p.1 + 1, p.2), (p.1, p.2 - 1), (p.1 - 1, p.2)]

/-- 4-adjacency of pixels: `q` is obtained from `p` by one of the four unit
offsets. -/
def adj4 (p q : Pt) : Prop := q ∈ neighbors p

instance (p q : Pt) : Decidable (adj4 p q) := by unfold adj4; infer_instance

/-- The drawing canvas state (`Canvas` of src/src/gui/canvas.py): the live
image, the two history stacks, and the color settings the claims mention.
`canvas_width`/`canvas_height` always mirror `image.width()`/`image.height()`
in the source, so they are represented by `image.width`/`image.height`. -/
structure Canvas where
  image : Bitmap
  undo_stack : List Bitmap
  redo_stack : List Bitmap
  brush_color : Color
  gradient_start_color : Color
  gradient_end_color : Color

namespace Canvas

/-- `max_history = 20`. -/
def max_history : Nat := 20

/-- The stack update performed by `save_state`: append a copy of the image
(cons, top-at-head), then `pop(0)` the oldest entry (`dropLast`) if the depth
exceeds `max_history`. -/
def pushHist (b : Bitmap) (u : List Bitmap) : List Bitmap :=
  let u' := b :: u
  if u'.length > max_history then u'.dropLast else u'

/-- `Canvas.save_state`: push a copy of the current image onto the undo
stack, drop the oldest entry past `max_history`, clear the redo stack. -/
def save_state (s : Canvas) : Canvas :=
  { s with undo_stack := pushHist s.image s.undo_stack, redo_stack := [] }

/-- `Canvas.load_image`: calls `save_state`, then replaces the live image
with a copy of the argument (`canvas_width`/`canvas_height` follow the new
image's size, which our representation tracks automatically). -/
def load_image (s : Canvas) (img : Bitmap) : Canvas :=
  let s' := save_state s
  { s' with image := img }

/-- `Canvas.get_image`: a copy of the live image. -/
def get_image (s : Canvas) : Bitmap := s.image

/-- `Canvas.undo`: if the undo stack is non-empty, push the current image
onto the redo stack and pop the newest undo entry into the image. -/
def undo (s : Canvas) : Canvas :=
  match s.undo_stack with
  | [] => s
  | top :: rest =>
      { s with image := top, undo_stack := rest,
               redo_stack := s.image :: s.redo_stack }

/-- `Canvas.redo`: if the redo stack is non-empty, push the current image
onto the undo stack (with no depth bound — the source appends directly) and
pop the newest redo entry into the image. -/
def redo (s : Canvas) : Canvas :=
  match s.redo_stack with
  | [] => s
  | top :: rest =>
      { s with image := top, redo_stack := rest,
               undo_stack := s.image :: s.undo_stack }

/-- `Canvas.clear`: `save_state`, then fill the image with white. -/
def clear (s : Canvas) : Canvas :=
  let s' := save_state s
  { s' with image := { s'.image with pix := fun _ => Color.white } }

/-- The bitmap produced by `resize_canvas`: a white `w × h` image with the
old image drawn at its top-left corner (`painter.drawImage(0, 0, old)`);
pixels outside the new bounds are immaterial. -/
def resizeBitmap (b : Bitmap) (w h : Nat) : Bitmap :=
  ⟨w, h, fun p => if b.inBounds p then b.pix p else Color.white⟩

/-- `Canvas.resize_canvas`: no-op if the size is unchanged, otherwise
`save_state` and replace the image by the resized copy. -/
def resize_canvas (s : Canvas) (w h : Nat) : Canvas :=
  if w = s.image.width ∧ h = s.image.height then s
  else
    let s' := save_state s
    { s' with image := resizeBitmap s'.image w h }

/-- The `while stack:` loop of `Canvas.fill_at`. State: the image being
painted, the `visited` set (a list; elements are only ever added when absent,
keeping it duplicate-free), and the work stack (top at head; the source
appends the four neighbors in `neighbors` order and pops from the end, hence
`.reverse` before prepending). Reads compare against the snapshot `src`
taken at fill start. Structural recursion on fuel; see the header comment. -/
def floodLoop (src : Bitmap) (target brush : Color) :
    Nat → Bitmap → List Pt → List Pt → Bitmap
  | 0, cur, _, _ => cur
  | _ + 1, cur, _, [] => cur
  | fuel + 1, cur, visited, p :: rest =>
      if p ∈ visited then floodLoop src target brush fuel cur visited rest
      else if src.pix p ≠ target then floodLoop src target brush fuel cur visited rest
      else
        let cur' := cur.setPix p brush
        let visited' := p :: visited
        let pushed := (neighbors p).filter
          (fun q => decide (src.inBounds q) && decide (q ∉ visited'))
        floodLoop src target brush fuel cur' visited' (pushed.reverse ++ rest)

/-- `Canvas.fill_at`: flood-fill with the brush color seeded at `p`.
Out-of-bounds seed: return unchanged. Seed whose color already equals the
brush color: return unchanged. Otherwise run the worklist loop against the
snapshot of the image. -/
def fill_at (s : Canvas) (p : Pt) : Canvas :=
  let src := s.image
  if ¬ src.inBounds p then s
  else
    let target := src.pix p
    if target = s.brush_color then s
    else
      let img' := floodLoop src target s.brush_color
        (1 + 5 * (src.width * src.height)) src [] [p]
      { s with image := img' }

/-- The region-discovery `while stack:` loop of `Canvas.fill_gradient`.
The source keeps a boolean `mask` and a list `shape_bounds` that always hold
the same set of pixels (both are extended together); they are embedded as the
single list `visited`. Bounds are checked at pop time and all four neighbors
are pushed unconditionally, exactly as in the source. -/
def gradLoop (src : Bitmap) (target : Color) :
    Nat → List Pt → List Pt → List Pt
  | 0, visited, _ => visited
  | _ + 1, visited, [] => visited
  | fuel + 1, visited, p :: rest =>
      if ¬ src.inBounds p ∨ p ∈ visited then gradLoop src target fuel visited rest
      else if src.pix p ≠ target then gradLoop src target fuel visited rest
      else gradLoop src target fuel (p :: visited) ((neighbors p).reverse ++ rest)

/-- The `shape_bounds` list computed by `fill_gradient` for seed `p`: the
pixels discovered by the region worklist, as a set. -/
def gradient_region (src : Bitmap) (p : Pt) : List Pt :=
  gradLoop src (src.pix p) (1 + 5 * (src.width * src.height)) [] [p]

/-- `min` over a list of coordinates, as Python's `min` on a non-empty
generator (the empty case never arises; 0 is a junk value). -/
def listMin (l : List Int) : Int :=
  match l with
  | [] => 0
  | x :: xs => xs.foldl min x

/-- `max` over a list of coordinates, as Python's `max` on a non-empty
generator. -/
def listMax (l : List Int) : Int :=
  match l with
  | [] => 0
  | x :: xs => xs.foldl max x

/-- `(min_x, min_y)`: the top-left corner of the bounding box of a region. -/
def bboxTL (region : List Pt) : Pt :=
  (listMin (region.map Prod.fst), listMin (region.map Prod.snd))

/-- `(max_x, max_y)`: the bottom-right corner of the bounding box. -/
def bboxBR (region : List Pt) : Pt :=
  (listMax (region.map Prod.fst), listMax (region.map Prod.snd))

/-- Modelled from the spec: one channel of the linear color ramp painted by
`QLinearGradient`/`fillPath` (library code outside src/): the channel value
interpolated from `a` to `b` at parameter `t`, rounded to an integer. -/
def lerpChan (a b : Nat) (t : ℚ) : Nat :=
  (Int.floor ((a : ℚ) + ((b : ℚ) - (a : ℚ)) * t)).toNat

/-- Modelled from the spec: the color that the linear gradient from `c0` at
`tl` to `c1` at `br` paints at pixel `p` — the pixel's position is projected
onto the gradient axis, the parameter clamped to `[0, 1]`, and each channel
interpolated (spec §4.1, gradient-fill steps (d)-(e)). -/
def gradientColorAt (c0 c1 : Color) (tl br : Pt) (p : Pt) : Color :=
  let den : ℚ :=
    (((br.1 - tl.1) * (br.1 - tl.1) + (br.2 - tl.2) * (br.2 - tl.2) : Int) : ℚ)
  let raw : ℚ :=
    (((p.1 - tl.1) * (br.1 - tl.1) + (p.2 - tl.2) * (br.2 - tl.2) : Int) : ℚ) / den
  let t : ℚ := max 0 (min 1 raw)
  ⟨lerpChan c0.r c1.r t, lerpChan c0.g c1.g t, lerpChan c0.b c1.b t,
   lerpChan c0.a c1.a t⟩

/-- `Canvas.fill_gradient`: guards (out-of-bounds seed; seed color equal to
either gradient endpoint; empty region), then discovers the region, computes
its bounding box, and paints every region pixel with the gradient color at
its own position. -/
def fill_gradient (s : Canvas) (p : Pt) : Canvas :=
  let src := s.image
  if ¬ src.inBounds p then s
  else
    let target := src.pix p
    if target = s.gradient_start_color ∨ target = s.gradient_end_color then s
    else
      let region := gradient_region src p
      if region = [] then s
      else
        let tl := bboxTL region
        let br := bboxBR region
        let img' := region.foldl
          (fun img q =>
            img.setPix q
              (gradientColorAt s.gradient_start_color s.gradient_end_color tl br q))
          src
        { s with image := img' }

end Canvas

/-! ## Frame manager (src/src/gui/frame_manager.py)

The `FrameManager` widget reaches into `self.parent.canvas`; the combined
state is embedded as one record holding the parent's canvas together with the
frame-manager fields. Timers: `play_animation` constructs a fresh `QTimer`
parented to the widget and starts it, without stopping any previously started
one, so the model counts the started timers (`active_timers`) and records the
interval handed to `QTimer.start` (`timer_interval_ms`). The list-widget
bookkeeping (`frame_list`, thumbnails, renumbering) and signal emission are
display-only and omitted. `frames[i] = v` on a Python list is `List.set`
(both are in-range in every reachable call). -/

structure AppState where
  canvas : Canvas
  frames : List Bitmap
  current_frame_index : Int
  fps : Nat
  active_timers : Nat
  timer_interval_ms : Nat
  playback_index : Nat
  old_index : Int

namespace AppState

/-- The commit prologue `if self.current_frame_index >= 0 and self.frames:`
shared by `add_frame`, `play_animation` and friends: store a copy of the live
canvas image into the current slot. -/
def commitCurrent (a : AppState) : AppState :=
  if 0 ≤ a.current_frame_index ∧ a.frames.isEmpty = false then
    { a with frames := a.frames.set a.current_frame_index.toNat a.canvas.image }
  else a

/-- `FrameManager.add_frame`: commit the current slot, append a blank
`QImage(800, 600)` white frame (the size is hard-coded in the source), select
it, and load it onto the canvas via `Canvas.load_image`. -/
def add_frame (a : AppState) : AppState :=
  let a' := commitCurrent a
  let frames' := a'.frames ++ [Bitmap.blank 800 600]
  { a' with frames := frames',
            current_frame_index := (frames'.length : Int) - 1,
            canvas := a'.canvas.load_image (Bitmap.blank 800 600) }

/-- `FrameManager.delete_frame`. The boolean records whether the
`QMessageBox.warning` ("Cannot delete the last frame.") was shown. First
guard: silently return on an empty list or negative index; second guard:
refuse with the warning when at most one frame remains; otherwise pop the
current slot, select `min(old_index, len(frames) - 1)` and load that frame
(via `Canvas.load_image`). -/
def delete_frame (a : AppState) : AppState × Bool :=
  if a.frames.isEmpty = true ∨ a.current_frame_index < 0 then (a, false)
  else if a.frames.length ≤ 1 then (a, true)
  else
    let frames' := a.frames.eraseIdx a.current_frame_index.toNat
    let newIndex : Int := min a.current_frame_index ((frames'.length : Int) - 1)
    let canvas' := if frames'.isEmpty = false then
        a.canvas.load_image (frames'.getD newIndex.toNat default)
      else a.canvas
    ({ a with frames := frames', current_frame_index := newIndex,
              canvas := canvas' }, false)

/-- `FrameManager.play_animation`: commit the current slot, construct and
start a new timer with interval `1000 // fps` ms, set `playback_index` to 0,
record `old_index`, and (when frames exist) load frame 0 onto the canvas.
There is no guard against being already playing or having no frames. -/
def play_animation (a : AppState) : AppState :=
  let a' := commitCurrent a
  let a'' := { a' with active_timers := a'.active_timers + 1,
                       timer_interval_ms := 1000 / a'.fps,
                       playback_index := 0,
                       old_index := a'.current_frame_index }
  if a''.frames.isEmpty = false then
    { a'' with canvas := a''.canvas.load_image (a''.frames.getD 0 default) }
  else a''

/-- `FrameManager.advance_frame` (the timer tick): return if no frames;
otherwise step `playback_index = (playback_index + 1) % len(frames)`, load
that frame onto the canvas via `Canvas.load_image`, and make it current. -/
def advance_frame (a : AppState) : AppState :=
  if a.frames.isEmpty = true then a
  else
    let pi := (a.playback_index + 1) % a.frames.length
    { a with playback_index := pi,
             canvas := a.canvas.load_image (a.frames.getD pi default),
             current_frame_index := (pi : Int) }

/-- `MainWindow.resize_canvas_dialog` confirmed with `(w, h)`: forwards to
`Canvas.resize_canvas`; the frame list is not touched. -/
def resizeCanvasTo (a : AppState) (w h : Nat) : AppState :=
  { a with canvas := a.canvas.resize_canvas w h }

/-- The application state right after start-up: the canvas holds a white
800×600 image with empty history and the default colors (black brush, red
and blue gradient endpoints), and the `FrameManager` constructor has run
`add_frame()` once on the initially empty frame list. -/
def startup : AppState :=
  let canvas0 : Canvas :=
    { image := Bitmap.blank 800 600, undo_stack := [], redo_stack := [],
      brush_color := Color.black, gradient_start_color := Color.red,
      gradient_end_color := Color.blue }
  add_frame
    { canvas := canvas0, frames := [], current_frame_index := -1, fps := 12,
      active_timers := 0, timer_interval_ms := 0, playback_index := 0,
      old_index := -1 }

end AppState

/-! ## Specification-level notions used to state the claims -/

/-- A pixel that the flood fill may occupy: in bounds and of the target color
in the snapshot taken at fill start. -/
def okPix (src : Bitmap) (target : Color) (p : Pt) : Prop :=
  src.inBounds p ∧ src.pix p = target

instance (src : Bitmap) (target : Color) (p : Pt) : Decidable (okPix src target p) := by
  unfold okPix; infer_instance

/-- One step of 4-connected reachability through target-colored pixels. -/
def FillStep (src : Bitmap) (target : Color) (a b : Pt) : Prop :=
  okPix src target b ∧ adj4 a b

/-- Membership in the maximal 4-connected component of `target`-colored
pixels (judged against the snapshot `src`) that contains the seed. -/
def InComponent (src : Bitmap) (target : Color) (seed p : Pt) : Prop :=
  okPix src target seed ∧ Relation.ReflTransGen (FillStep src target) seed p

/-- A surface mutation as the spec means it: `save_state` (requested by the
entry point — mouse-press, `clear`, `load_image`, `resize_canvas`) followed
by changes to the live image only. Pen and eraser strokes, `fill_at` and
`fill_gradient` after the press-time snapshot, `clear`'s white fill and the
resize copy are all instances, with `f` the net effect on the image. -/
def Canvas.mutate (f : Bitmap → Bitmap) (s : Canvas) : Canvas :=
  let s' := s.save_state
  { s' with image := f s'.image }

/-- A sequence of mutating operations applied in order. -/
def Canvas.applyMutations (ops : List (Bitmap → Bitmap)) (s : Canvas) : Canvas :=
  ops.foldl (fun t f => Canvas.mutate f t) s

/-- The alphabet of canvas operations, for stating "after any sequence of
operations" invariants: every state-changing method of `Canvas`. -/
inductive SurfOp where
  | save : SurfOp
  | doUndo : SurfOp
  | doRedo : SurfOp
  | doClear : SurfOp
  | load : Bitmap → SurfOp
  | resize : Nat → Nat → SurfOp
  | fillAt : Pt → SurfOp
  | fillGrad : Pt → SurfOp
  | stroke : (Bitmap → Bitmap) → SurfOp

/-- Interpretation of one canvas operation. -/
def SurfOp.apply (op : SurfOp) (s : Canvas) : Canvas :=
  match op with
  | .save => s.save_state
  | .doUndo => s.undo
  | .doRedo => s.redo
  | .doClear => s.clear
  | .load b => s.load_image b
  | .resize w h => s.resize_canvas w h
  | .fillAt p => s.fill_at p
  | .fillGrad p => s.fill_gradient p
  | .stroke f => Canvas.mutate f s

/-- Interpretation of a sequence of canvas operations. -/
def SurfOp.applyAll (ops : List SurfOp) (s : Canvas) : Canvas :=
  ops.foldl (fun t op => op.apply t) s

/-- The finite set of in-bounds pixel coordinates of a bitmap (used only to
measure progress of the worklist loops). -/
def ptsFinset (b : Bitmap) : Finset Pt :=
  (Finset.range b.width ×ˢ Finset.range b.height).image
    (fun ij => ((ij.1 : Int), (ij.2 : Int)))

/-- Loop measure for the fill worklists: the stack length plus five times the
number of in-bounds pixels not yet visited. Every iteration of either loop
strictly decreases it, so the fuel `1 + 5 * width * height` chosen in
`fill_at`/`fill_gradient` is never exhausted. -/
def loopMeasure (b : Bitmap) (visited stack : List Pt) : Nat :=
  stack.length + 5 * ((ptsFinset b).filter (fun q => q ∉ visited)).card

/-! ## Concrete states used by witnesses and counterexamples -/

/-- A canvas whose live image is a single white pixel, with empty history and
the default colors. -/
def canvas1 : Canvas :=
  { image := Bitmap.blank 1 1, undo_stack := [], redo_stack := [],
    brush_color := Color.black, gradient_start_color := Color.red,
    gradient_end_color := Color.blue }

/-- A canvas whose live image is a white 2×1 strip (two pixels side by
side), with empty history and the default colors. -/
def canvas2x1 : Canvas :=
  { image := Bitmap.blank 2 1, undo_stack := [], redo_stack := [],
    brush_color := Color.black, gradient_start_color := Color.red,
    gradient_end_color := Color.blue }

/-- A 2×2 image whose top-left pixel `(0, 0)` is black and whose other three
pixels are white: the white region is L-shaped, so the top-left corner of its
bounding box is not part of the region. -/
def imageL : Bitmap :=
  ⟨2, 2, fun p => if p = ((0 : Int), (0 : Int)) then Color.black else Color.white⟩

/-- A canvas holding `imageL`, with empty history and the default colors. -/
def canvasL : Canvas :=
  { image := imageL, undo_stack := [], redo_stack := [],
    brush_color := Color.black, gradient_start_color := Color.red,
    gradient_end_color := Color.blue }

/-- An application state with zero frames (as after the `new_project` reset,
before its `add_frame` call), not playing. -/
def appNoFrames : AppState :=
  { canvas := canvas1, frames := [], current_frame_index := -1, fps := 12,
    active_timers := 0, timer_interval_ms := 0, playback_index := 0,
    old_index := -1 }

/-- An application state with two one-pixel frames (a white one and a black
one), frame 0 selected. -/
def appTwoFrames : AppState :=
  { canvas := canvas1,
    frames := [Bitmap.blank 1 1, ⟨1, 1, fun _ => Color.black⟩],
    current_frame_index := 0, fps := 12, active_timers := 0,
    timer_interval_ms := 0, playback_index := 0, old_index := -1 }

/-- A canvas like `canvas1` but whose brush color is white, so the (white)
seed pixel already has the brush color. -/
def canvasWhiteBrush : Canvas :=
  { image := Bitmap.blank 1 1, undo_stack := [], redo_stack := [],
    brush_color := Color.white, gradient_start_color := Color.red,
    gradient_end_color := Color.blue }

/-- A sample image-only mutation: painting the whole image black (the net
effect of a large pen stroke). -/
def paintBlack : Bitmap → Bitmap :=
  fun b => { b with pix := fun _ => Color.black }

/-! ## Basic lemmas about the embedding -/

theorem Bitmap.inBounds_setPix (b : Bitmap) (p : Pt) (c : Color) (q : Pt) :
    (b.setPix p c).inBounds q ↔ b.inBounds q := by
  unfold Bitmap.setPix
  split <;> rfl

theorem Bitmap.pix_setPix_self (b : Bitmap) (p : Pt) (c : Color)
    (h : b.inBounds p) : (b.setPix p c).pix p = c := by
  unfold Bitmap.setPix
  rw [if_pos h]
  simp [Function.update]

theorem Bitmap.pix_setPix_ne (b : Bitmap) (p : Pt) (c : Color) (q : Pt)
    (h : q ≠ p) : (b.setPix p c).pix q = b.pix q := by
  unfold Bitmap.setPix
  split
  · simp [Function.update, h]
  · rfl

theorem Canvas.pushHist_exists_cons (b : Bitmap) (u : List Bitmap) :
    ∃ t, Canvas.pushHist b u = b :: t := by
  unfold Canvas.pushHist
  dsimp only
  split
  · cases u with
    | nil => simp [Canvas.max_history] at *
    | cons x xs => exact ⟨(x :: xs).dropLast, by simp [List.dropLast_cons₂]⟩
  · exact ⟨u, rfl⟩

theorem Canvas.length_pushHist_le (b : Bitmap) (u : List Bitmap)
    (h : u.length ≤ Canvas.max_history) :
    (Canvas.pushHist b u).length ≤ Canvas.max_history := by
  unfold Canvas.pushHist
  dsimp only
  split <;> simp_all

/-- Neither fill operation touches the history stacks or the settings: only
the live image changes. -/
theorem Canvas.fill_at_stacks (s : Canvas) (p : Pt) :
    (s.fill_at p).undo_stack = s.undo_stack ∧
      (s.fill_at p).redo_stack = s.redo_stack := by
  unfold Canvas.fill_at
  dsimp only
  split
  · exact ⟨rfl, rfl⟩
  · split <;> exact ⟨rfl, rfl⟩

theorem Canvas.fill_gradient_stacks (s : Canvas) (p : Pt) :
    (s.fill_gradient p).undo_stack = s.undo_stack ∧
      (s.fill_gradient p).redo_stack = s.redo_stack := by
  unfold Canvas.fill_gradient
  dsimp only
  split
  · exact ⟨rfl, rfl⟩
  · split
    · exact ⟨rfl, rfl⟩
    · split <;> exact ⟨rfl, rfl⟩

/-- Popping the newest undo entry after a mutation recovers the image from
just before that mutation. -/
theorem Canvas.undo_mutate (t : Canvas) (f : Bitmap → Bitmap) :
    (Canvas.mutate f t).undo.image = t.image := by
  obtain ⟨tl, htl⟩ := Canvas.pushHist_exists_cons t.image t.undo_stack
  simp [Canvas.mutate, Canvas.save_state, Canvas.undo, htl]

/-- With a non-empty undo stack, `undo` then `redo` restores the image. -/
theorem Canvas.redo_undo_image (s : Canvas) (hs : s.undo_stack ≠ []) :
    s.undo.redo.image = s.image := by
  cases hu : s.undo_stack with
  | nil => exact absurd hu hs
  | cons top rest => simp [Canvas.undo, Canvas.redo, hu]

/-- Field-level description of `play_animation`, shared by the playback
claims: a timer is always started with interval `1000 / fps`, the playback
index is reset to 0 and the old selection recorded; the frame count is
unchanged; with no frames the canvas and frame list are untouched, and with
frames the canvas image becomes (the committed) frame 0. -/
theorem AppState.play_fields (a : AppState) :
    a.play_animation.active_timers = a.active_timers + 1 ∧
    a.play_animation.timer_interval_ms = 1000 / a.fps ∧
    a.play_animation.playback_index = 0 ∧
    a.play_animation.old_index = a.current_frame_index ∧
    a.play_animation.frames.length = a.frames.length ∧
    (a.frames.isEmpty = true →
       a.play_animation.canvas = a.canvas ∧ a.play_animation.frames = a.frames) ∧
    (a.frames.isEmpty = false →
       a.play_animation.canvas.image = a.play_animation.frames.getD 0 default) := by
  unfold AppState.play_animation AppState.commitCurrent
  dsimp only
  split_ifs with h1 h2 <;>
    refine ⟨rfl, rfl, rfl, rfl, by simp, fun hemp => ?_, fun hne => ?_⟩ <;>
    first
      | exact ⟨rfl, rfl⟩
      | rfl
      | simp_all [Canvas.load_image, Canvas.save_state]

/-- Emptiness and length of a list of bitmaps agree in the usual way
(`DecidableEq` is unavailable for `Bitmap`, so this small bridge is used
instead of `simp` lemmas about `l = []`). -/
theorem isEmpty_false_iff (l : List Bitmap) : l.isEmpty = false ↔ l.length ≠ 0 := by
  cases l <;> simp

/-! ## Claim theorems -/

/-- C1, counterexample to the claim as stated: loading a bitmap into the
surface does push a history entry — starting from a canvas with empty undo
stack, `load_image` leaves a non-empty undo stack. -/
theorem load_image_history_cex :
    (canvas1.load_image (Bitmap.blank 1 1)).undo_stack ≠ canvas1.undo_stack := by
  simp [canvas1, Canvas.load_image, Canvas.save_state, Canvas.pushHist,
    Canvas.max_history]

/-- C1, amended: `load_image` replaces the live bitmap with (a copy of) the
given bitmap, but first pushes the previous bitmap onto the undo stack
(dropping the oldest entry past the depth bound) and clears the redo stack;
consequently every playback tick, which loads a frame via `load_image`,
pushes an undo entry and clears the redo stack. -/
theorem load_image_pushes_history (s : Canvas) (img : Bitmap) (a : AppState)
    (ha : a.frames.isEmpty = false) :
    s.load_image img
        = { s with image := img,
                   undo_stack := Canvas.pushHist s.image s.undo_stack,
                   redo_stack := [] } ∧
    a.advance_frame.canvas.undo_stack
        = Canvas.pushHist a.canvas.image a.canvas.undo_stack ∧
    a.advance_frame.canvas.redo_stack = [] := by
  refine ⟨rfl, ?_, ?_⟩ <;>
    simp [AppState.advance_frame, ha, Canvas.load_image, Canvas.save_state]

/-- C1 witness: the amended claim at a concrete two-frame state. -/
theorem load_image_pushes_history_witness :
    appTwoFrames.frames.isEmpty = false ∧
    appTwoFrames.advance_frame.canvas.undo_stack
      = Canvas.pushHist appTwoFrames.canvas.image appTwoFrames.canvas.undo_stack :=
  ⟨rfl, (load_image_pushes_history canvas1 (Bitmap.blank 1 1) appTwoFrames rfl).2.1⟩

/-- C3: undo is a no-op on an empty undo stack; after any sequence of
mutating operations and one more, undo recovers the image from before the
last mutation; redo after undo restores the mutated image; and on any state
with a non-empty undo stack, undo followed by redo leaves the image
identical. -/
theorem undo_redo_inverse (s₀ s : Canvas) (ops : List (Bitmap → Bitmap))
    (f : Bitmap → Bitmap) :
    (s₀.undo_stack = [] → s₀.undo = s₀) ∧
    (Canvas.applyMutations (ops ++ [f]) s₀).undo.image
      = (Canvas.applyMutations ops s₀).image ∧
    (Canvas.mutate f s₀).undo.redo.image = (Canvas.mutate f s₀).image ∧
    (s.undo_stack ≠ [] → s.undo.redo.image = s.image) := by
  refine ⟨?_, ?_, ?_, Canvas.redo_undo_image s⟩
  · intro h
    simp [Canvas.undo, h]
  · have hsplit : Canvas.applyMutations (ops ++ [f]) s₀
        = Canvas.mutate f (Canvas.applyMutations ops s₀) := by
      simp [Canvas.applyMutations, List.foldl_append]
    rw [hsplit, Canvas.undo_mutate]
  · apply Canvas.redo_undo_image
    obtain ⟨tl, htl⟩ := Canvas.pushHist_exists_cons s₀.image s₀.undo_stack
    simp [Canvas.mutate, Canvas.save_state, htl]

/-- C3 witness: the laws at concrete states — an empty-history canvas for
the no-op law, and a freshly mutated canvas for undo-then-redo. -/
theorem undo_redo_inverse_witness :
    canvas1.undo_stack = [] ∧ canvas1.undo = canvas1 ∧
    (Canvas.mutate paintBlack canvas1).undo_stack ≠ [] ∧
    (Canvas.mutate paintBlack canvas1).undo.redo.image
      = (Canvas.mutate paintBlack canvas1).image := by
  refine ⟨rfl, ?_, ?_, ?_⟩
  · exact (undo_redo_inverse canvas1 canvas1 [] paintBlack).1 rfl
  · simp [Canvas.mutate, Canvas.save_state, Canvas.pushHist, canvas1,
      Canvas.max_history]
  · exact (undo_redo_inverse canvas1 (Canvas.mutate paintBlack canvas1) [] paintBlack).2.2.2
      (by simp [Canvas.mutate, Canvas.save_state, Canvas.pushHist, canvas1,
            Canvas.max_history])

/-- Every canvas operation preserves the bound `|undo| + |redo| ≤ 20`: the
only unbounded push (`redo`'s append to the undo stack) moves an element
from one stack to the other, and `save_state` clears the redo stack while
bounding the undo stack. -/
theorem SurfOp.hist_sum_le (op : SurfOp) (s : Canvas)
    (h : s.undo_stack.length + s.redo_stack.length ≤ Canvas.max_history) :
    (op.apply s).undo_stack.length + (op.apply s).redo_stack.length
      ≤ Canvas.max_history := by
  have hsave : ∀ t : Canvas,
      t.undo_stack.length ≤ Canvas.max_history →
        t.save_state.undo_stack.length + t.save_state.redo_stack.length
          ≤ Canvas.max_history := by
    intro t ht
    have := Canvas.length_pushHist_le t.image t.undo_stack ht
    simpa [Canvas.save_state] using this
  cases op with
  | save => exact hsave s (by omega)
  | doUndo =>
      cases hu : s.undo_stack with
      | nil => simpa [SurfOp.apply, Canvas.undo, hu] using h
      | cons x xs =>
          simp only [hu, List.length_cons] at h
          simp [SurfOp.apply, Canvas.undo, hu]
          omega
  | doRedo =>
      cases hr : s.redo_stack with
      | nil => simpa [SurfOp.apply, Canvas.redo, hr] using h
      | cons x xs =>
          simp only [hr, List.length_cons] at h
          simp [SurfOp.apply, Canvas.redo, hr]
          omega
  | doClear =>
      have := hsave s (by omega)
      simpa [SurfOp.apply, Canvas.clear, Canvas.save_state] using this
  | load b =>
      have := hsave s (by omega)
      simpa [SurfOp.apply, Canvas.load_image, Canvas.save_state] using this
  | resize w hh =>
      unfold SurfOp.apply Canvas.resize_canvas
      dsimp only
      split
      · exact h
      · have := hsave s (by omega)
        simpa [Canvas.save_state] using this
  | fillAt p =>
      obtain ⟨h1, h2⟩ := Canvas.fill_at_stacks s p
      simpa [SurfOp.apply, h1, h2] using h
  | fillGrad p =>
      obtain ⟨h1, h2⟩ := Canvas.fill_gradient_stacks s p
      simpa [SurfOp.apply, h1, h2] using h
  | stroke f =>
      have := hsave s (by omega)
      simpa [Canvas.mutate, Canvas.save_state, SurfOp.apply] using this

/-- The stack-sum bound propagates along any operation sequence. -/
theorem SurfOp.applyAll_hist_le (ops : List SurfOp) :
    ∀ s : Canvas,
      s.undo_stack.length + s.redo_stack.length ≤ Canvas.max_history →
        (SurfOp.applyAll ops s).undo_stack.length
            + (SurfOp.applyAll ops s).redo_stack.length ≤ Canvas.max_history := by
  induction ops with
  | nil => intro s h; simpa [SurfOp.applyAll] using h
  | cons op rest ih =>
      intro s h
      have hstep := SurfOp.hist_sum_le op s h
      simpa [SurfOp.applyAll, List.foldl_cons] using ih (op.apply s) hstep

/-- C4: `save_state` pushes a copy of the current bitmap onto the undo stack
(dropping the oldest entry exactly when the depth would exceed 20) and
unconditionally clears the redo stack; and starting from any state within
the history bound (in particular the initial empty-history state), after any
sequence of canvas operations the undo stack holds at most 20 entries. -/
theorem save_state_spec_and_history_bound (s t : Canvas) (ops : List SurfOp)
    (ht : t.undo_stack.length + t.redo_stack.length ≤ Canvas.max_history) :
    s.save_state.redo_stack = [] ∧
    (s.undo_stack.length < Canvas.max_history →
       s.save_state.undo_stack = s.image :: s.undo_stack) ∧
    (Canvas.max_history ≤ s.undo_stack.length →
       s.save_state.undo_stack = (s.image :: s.undo_stack).dropLast) ∧
    (SurfOp.applyAll ops t).undo_stack.length ≤ Canvas.max_history := by
  refine ⟨rfl, ?_, ?_, by have := SurfOp.applyAll_hist_le ops t ht; omega⟩
  · intro h
    unfold Canvas.save_state Canvas.pushHist
    dsimp only
    rw [if_neg (by simp only [List.length_cons]; omega)]
  · intro h
    unfold Canvas.save_state Canvas.pushHist
    dsimp only
    rw [if_pos (by simp only [List.length_cons]; omega)]

/-- C4 witness: the characterization and the bound at a concrete canvas and
a concrete operation sequence. -/
theorem save_state_spec_witness :
    (canvas1.undo_stack.length + canvas1.redo_stack.length ≤ Canvas.max_history) ∧
    canvas1.undo_stack.length < Canvas.max_history ∧
    canvas1.save_state.undo_stack = canvas1.image :: canvas1.undo_stack ∧
    (SurfOp.applyAll [SurfOp.save, SurfOp.doUndo, SurfOp.doRedo] canvas1).undo_stack.length
      ≤ Canvas.max_history := by
  refine ⟨by decide, by decide, ?_, ?_⟩
  · exact (save_state_spec_and_history_bound canvas1 canvas1 [] (by decide)).2.1
      (by decide)
  · exact (save_state_spec_and_history_bound canvas1 canvas1
      [SurfOp.save, SurfOp.doUndo, SurfOp.doRedo] (by decide)).2.2.2

/-- C5, counterexample to the claim as stated: with zero frames,
`play_animation` is not a no-op — it still starts a timer. -/
theorem play_animation_guard_cex :
    appNoFrames.frames.isEmpty = true ∧
    appNoFrames.play_animation ≠ appNoFrames := by
  refine ⟨rfl, fun h => ?_⟩
  have := congrArg AppState.active_timers h
  simp [AppState.play_animation, AppState.commitCurrent, appNoFrames] at this

/-- C5, amended: `play_animation` has no already-playing or empty-sequence
guard: it always starts one more timer with interval `1000 / fps` ms, resets
the playback index to 0 and records the old selection; when the sequence is
empty, only the frame commit and the initial frame load are skipped (canvas
and frames untouched), and the timer still starts. -/
theorem play_animation_no_guard (a : AppState) :
    a.play_animation.active_timers = a.active_timers + 1 ∧
    a.play_animation.timer_interval_ms = 1000 / a.fps ∧
    a.play_animation.playback_index = 0 ∧
    a.play_animation.old_index = a.current_frame_index ∧
    (a.frames.isEmpty = true →
       a.play_animation.canvas = a.canvas ∧ a.play_animation.frames = a.frames) := by
  obtain ⟨h1, h2, h3, h4, -, h6, -⟩ := AppState.play_fields a
  exact ⟨h1, h2, h3, h4, h6⟩

/-- C5 witness: the amended claim at the concrete zero-frame state. -/
theorem play_animation_no_guard_witness :
    appNoFrames.frames.isEmpty = true ∧
    appNoFrames.play_animation.active_timers = appNoFrames.active_timers + 1 ∧
    appNoFrames.play_animation.canvas = appNoFrames.canvas ∧
    appNoFrames.play_animation.frames = appNoFrames.frames :=
  ⟨rfl, (play_animation_no_guard appNoFrames).1,
   ((play_animation_no_guard appNoFrames).2.2.2.2 rfl).1,
   ((play_animation_no_guard appNoFrames).2.2.2.2 rfl).2⟩

/-- C6: deleting with exactly one frame left is refused — the warning is
shown and the state is returned unchanged; with more than one frame, the
current slot is removed and the new index is `min(old, len(frames) - 1)`
over the shortened list. -/
theorem delete_frame_spec (a : AppState)
    (h0 : 0 ≤ a.current_frame_index)
    (_h1 : a.current_frame_index < (a.frames.length : Int)) :
    (a.frames.length = 1 → a.delete_frame = (a, true)) ∧
    (1 < a.frames.length →
       a.delete_frame.2 = false ∧
       a.delete_frame.1.frames = a.frames.eraseIdx a.current_frame_index.toNat ∧
       a.delete_frame.1.current_frame_index
         = min a.current_frame_index ((a.delete_frame.1.frames.length : Int) - 1)) := by
  constructor
  · intro hlen
    have hne : a.frames.isEmpty = false := by
      cases hF : a.frames with
      | nil => rw [hF] at hlen; simp at hlen
      | cons x xs => rfl
    unfold AppState.delete_frame
    dsimp only
    rw [if_neg (by simp [hne]; omega), if_pos (by omega)]
  · intro hlen
    have hne : a.frames.isEmpty = false := by
      cases hF : a.frames with
      | nil => rw [hF] at hlen; simp at hlen
      | cons x xs => rfl
    unfold AppState.delete_frame
    dsimp only
    rw [if_neg (by simp [hne]; omega), if_neg (by omega)]
    exact ⟨rfl, rfl, rfl⟩

/-- C6 witness: refusal at the one-frame start-up state, deletion at a
two-frame state. -/
theorem delete_frame_spec_witness :
    (0 ≤ AppState.startup.current_frame_index ∧
     AppState.startup.current_frame_index < (AppState.startup.frames.length : Int) ∧
     AppState.startup.frames.length = 1 ∧
     AppState.startup.delete_frame = (AppState.startup, true)) ∧
    (1 < appTwoFrames.frames.length ∧
     appTwoFrames.delete_frame.2 = false ∧
     appTwoFrames.delete_frame.1.frames
       = appTwoFrames.frames.eraseIdx appTwoFrames.current_frame_index.toNat) := by
  refine ⟨⟨by decide, by decide, by decide, ?_⟩, by decide, ?_, ?_⟩
  · exact (delete_frame_spec AppState.startup (by decide) (by decide)).1 (by decide)
  · exact ((delete_frame_spec appTwoFrames (by decide) (by decide)).2 (by decide)).1
  · exact ((delete_frame_spec appTwoFrames (by decide) (by decide)).2 (by decide)).2.1

/-- C7: flood fill seeded out of bounds leaves the canvas unchanged, and
flood fill seeded at a pixel whose color already equals the brush color
leaves the canvas unchanged. -/
theorem fill_at_noop_guards (s : Canvas) (p : Pt) :
    (¬ s.image.inBounds p → s.fill_at p = s) ∧
    (s.image.pix p = s.brush_color → s.fill_at p = s) := by
  constructor
  · intro h
    unfold Canvas.fill_at
    dsimp only
    rw [if_pos h]
  · intro h
    unfold Canvas.fill_at
    dsimp only
    by_cases hb : s.image.inBounds p
    · rw [if_neg (not_not_intro hb), if_pos h]
    · rw [if_pos hb]

/-- C7 witness: the out-of-bounds guard on a one-pixel canvas, and the
equal-color guard on a canvas whose brush is white like its image. -/
theorem fill_at_noop_guards_witness :
    (¬ canvas1.image.inBounds ((5 : Int), (0 : Int)) ∧
       canvas1.fill_at ((5 : Int), (0 : Int)) = canvas1) ∧
    (canvasWhiteBrush.image.pix ((0 : Int), (0 : Int)) = canvasWhiteBrush.brush_color ∧
       canvasWhiteBrush.fill_at ((0 : Int), (0 : Int)) = canvasWhiteBrush) :=
  ⟨⟨by decide, (fill_at_noop_guards canvas1 ((5 : Int), (0 : Int))).1 (by decide)⟩,
   ⟨by decide, (fill_at_noop_guards canvasWhiteBrush ((0 : Int), (0 : Int))).2 (by decide)⟩⟩

/-- C9, the code evaluated at the failing input: resize the canvas to
400×300 from the start-up state, then add a frame — the committed first
frame is 400 wide while the newly appended frame is the hard-coded 800×600
blank, so two frames of different sizes coexist. -/
theorem mixed_frame_sizes_after_resize :
    ((AppState.startup.resizeCanvasTo 400 300).add_frame.frames.getD 0 default).width
        = 400 ∧
    ((AppState.startup.resizeCanvasTo 400 300).add_frame.frames.getD 1 default).width
        = 800 ∧
    ((AppState.startup.resizeCanvasTo 400 300).add_frame.frames.getD 0 default).width
      ≠ ((AppState.startup.resizeCanvasTo 400 300).add_frame.frames.getD 1 default).width := by
  refine ⟨by decide, by decide, by decide⟩

/-- C10: starting playback always begins at frame 0 — `play_animation` sets
the playback index to 0 and loads frame 0's bitmap, and the first timer tick
then shows frame `1 mod frame_count`, irrespective of the prior selection. -/
theorem playback_starts_at_frame_zero (a : AppState)
    (ha : a.frames.isEmpty = false) :
    a.play_animation.playback_index = 0 ∧
    a.play_animation.canvas.image = a.play_animation.frames.getD 0 default ∧
    a.play_animation.advance_frame.playback_index = 1 % a.frames.length ∧
    a.play_animation.advance_frame.canvas.image
      = a.play_animation.frames.getD (1 % a.frames.length) default := by
  obtain ⟨-, -, hpi, -, hlen, -, himg⟩ := AppState.play_fields a
  have hframes : a.play_animation.frames.isEmpty = false := by
    rw [isEmpty_false_iff] at ha ⊢
    omega
  refine ⟨hpi, himg ha, ?_, ?_⟩ <;>
  · unfold AppState.advance_frame
    dsimp only
    rw [if_neg (by simp [hframes])]
    simp [Canvas.load_image, Canvas.save_state, hpi, hlen]

/-- C10 witness: playback from the two-frame state with frame 0 selected. -/
theorem playback_starts_at_frame_zero_witness :
    appTwoFrames.frames.isEmpty = false ∧
    appTwoFrames.play_animation.playback_index = 0 ∧
    appTwoFrames.play_animation.advance_frame.playback_index
      = 1 % appTwoFrames.frames.length :=
  ⟨rfl, (playback_starts_at_frame_zero appTwoFrames rfl).1,
   (playback_starts_at_frame_zero appTwoFrames rfl).2.2.1⟩

/-! ## Flood-fill correctness (C2) -/

theorem Bitmap.width_setPix (b : Bitmap) (p : Pt) (c : Color) :
    (b.setPix p c).width = b.width := by
  unfold Bitmap.setPix
  split <;> rfl

theorem Bitmap.height_setPix (b : Bitmap) (p : Pt) (c : Color) :
    (b.setPix p c).height = b.height := by
  unfold Bitmap.setPix
  split <;> rfl

theorem Bitmap.inBounds_congr {b b' : Bitmap} (hw : b'.width = b.width)
    (hh : b'.height = b.height) (p : Pt) : b'.inBounds p ↔ b.inBounds p := by
  unfold Bitmap.inBounds
  rw [hw, hh]

theorem mem_ptsFinset {b : Bitmap} {p : Pt} : p ∈ ptsFinset b ↔ b.inBounds p := by
  unfold ptsFinset Bitmap.inBounds
  simp only [Finset.mem_image, Finset.mem_product, Finset.mem_range]
  constructor
  · rintro ⟨⟨i, j⟩, ⟨hi, hj⟩, rfl⟩
    refine ⟨by positivity, ?_, by positivity, ?_⟩ <;> simpa using by omega
  · rintro ⟨h0, h1, h2, h3⟩
    refine ⟨(p.1.toNat, p.2.toNat), ⟨by omega, by omega⟩, ?_⟩
    simp only [Prod.ext_iff]
    constructor <;> simp <;> omega

theorem card_ptsFinset_le (b : Bitmap) :
    (ptsFinset b).card ≤ b.width * b.height := by
  calc (ptsFinset b).card
      ≤ (Finset.range b.width ×ˢ Finset.range b.height).card :=
        Finset.card_image_le
    _ = b.width * b.height := by simp

theorem card_unvisited_lt (src : Bitmap) (visited : List Pt) (p : Pt)
    (hb : src.inBounds p) (hv : p ∉ visited) :
    ((ptsFinset src).filter (fun q => q ∉ p :: visited)).card
      < ((ptsFinset src).filter (fun q => q ∉ visited)).card := by
  apply Finset.card_lt_card
  rw [Finset.ssubset_iff_of_subset]
  · exact ⟨p, Finset.mem_filter.2 ⟨mem_ptsFinset.2 hb, hv⟩, by simp⟩
  · intro q hq
    rw [Finset.mem_filter] at hq ⊢
    exact ⟨hq.1, fun h => hq.2 (List.mem_cons_of_mem _ h)⟩

/-- With an empty work stack, a visited set that contains the seed, is
contained in the component and is closed under component adjacency holds
exactly the component, so the painted image is the component painted with
the brush color. -/
theorem flood_end_state (src : Bitmap) (target brush : Color) (seed : Pt)
    (cur : Bitmap) (visited : List Pt)
    (hB : ∀ q ∈ visited, InComponent src target seed q)
    (hD : ∀ v ∈ visited, ∀ q, adj4 v q → okPix src target q → q ∈ visited)
    (hE : seed ∈ visited)
    (hF : ∀ q, (q ∈ visited → cur.pix q = brush) ∧
               (q ∉ visited → cur.pix q = src.pix q)) :
    ∀ p, (InComponent src target seed p → cur.pix p = brush) ∧
         (¬ InComponent src target seed p → cur.pix p = src.pix p) := by
  have hsub : ∀ p, InComponent src target seed p → p ∈ visited := by
    intro p hp
    obtain ⟨hok, hpath⟩ := hp
    induction hpath with
    | refl => exact hE
    | tail h1 h2 ih => exact hD _ ih _ h2.2 h2.1
  intro p
  constructor
  · intro hp
    exact (hF p).1 (hsub p hp)
  · intro hp
    exact (hF p).2 (fun hv => hp (hB p hv))

/-- Main worklist invariant for `floodLoop`: given enough fuel (measured by
`loopMeasure`), a stack of in-bounds pixels each adjacent to a visited pixel
(or equal to the seed), a visited set inside the component whose
component-neighbors all sit in the visited set or on the stack, and a
partially painted image, the loop returns the original image with exactly
the seed's component painted with the brush color. -/
theorem floodLoop_spec (src : Bitmap) (target brush : Color) (seed : Pt)
    (hseed : okPix src target seed) :
    ∀ (fuel : Nat) (cur : Bitmap) (visited stack : List Pt),
      loopMeasure src visited stack ≤ fuel →
      cur.width = src.width ∧ cur.height = src.height →
      (∀ q ∈ stack, src.inBounds q) →
      (∀ q ∈ visited, InComponent src target seed q) →
      (∀ q ∈ stack, q = seed ∨ ∃ v ∈ visited, adj4 v q) →
      (∀ v ∈ visited, ∀ q, adj4 v q → okPix src target q →
          q ∈ visited ∨ q ∈ stack) →
      (seed ∈ visited ∨ seed ∈ stack) →
      (∀ q, (q ∈ visited → cur.pix q = brush) ∧
            (q ∉ visited → cur.pix q = src.pix q)) →
      ∀ p, (InComponent src target seed p →
              (Canvas.floodLoop src target brush fuel cur visited stack).pix p = brush) ∧
           (¬ InComponent src target seed p →
              (Canvas.floodLoop src target brush fuel cur visited stack).pix p = src.pix p) := by
  intro fuel
  induction fuel with
  | zero =>
      intro cur visited stack hfuel hG hA hB hC hD hE hF
      have hstack : stack = [] := by
        cases stack with
        | nil => rfl
        | cons x xs =>
            unfold loopMeasure at hfuel
            simp only [List.length_cons] at hfuel
            omega
      subst hstack
      have hD' : ∀ v ∈ visited, ∀ q, adj4 v q → okPix src target q → q ∈ visited := by
        intro v hv q hq hok
        rcases hD v hv q hq hok with h | h
        · exact h
        · simp at h
      have hE' : seed ∈ visited := by
        rcases hE with h | h
        · exact h
        · simp at h
      exact flood_end_state src target brush seed cur visited hB hD' hE' hF
  | succ fuel ih =>
      intro cur visited stack hfuel hG hA hB hC hD hE hF
      cases stack with
      | nil =>
          have hD' : ∀ v ∈ visited, ∀ q, adj4 v q → okPix src target q → q ∈ visited := by
            intro v hv q hq hok
            rcases hD v hv q hq hok with h | h
            · exact h
            · simp at h
          have hE' : seed ∈ visited := by
            rcases hE with h | h
            · exact h
            · simp at h
          exact flood_end_state src target brush seed cur visited hB hD' hE' hF
      | cons p rest =>
          by_cases hpv : p ∈ visited
          · have hstep : Canvas.floodLoop src target brush (fuel + 1) cur visited (p :: rest)
                = Canvas.floodLoop src target brush fuel cur visited rest := by
              simp only [Canvas.floodLoop]
              rw [if_pos hpv]
            rw [hstep]
            refine ih cur visited rest ?_ hG
              (fun q hq => hA q (List.mem_cons_of_mem _ hq)) hB
              (fun q hq => hC q (List.mem_cons_of_mem _ hq)) ?_ ?_ hF
            · unfold loopMeasure at hfuel ⊢
              simp only [List.length_cons] at hfuel
              omega
            · intro v hv q hq hok
              rcases hD v hv q hq hok with h | h
              · exact Or.inl h
              · rcases List.mem_cons.1 h with rfl | h'
                · exact Or.inl hpv
                · exact Or.inr h'
            · rcases hE with h | h
              · exact Or.inl h
              · rcases List.mem_cons.1 h with rfl | h'
                · exact Or.inl hpv
                · exact Or.inr h'
          · by_cases hpc : src.pix p = target
            · -- the visit case: paint `p`, mark it visited, push its
              -- unvisited in-bounds neighbors
              have hpin : src.inBounds p := hA p (List.mem_cons_self p rest)
              have hokp : okPix src target p := ⟨hpin, hpc⟩
              have hcompp : InComponent src target seed p := by
                rcases hC p (List.mem_cons_self p rest) with rfl | ⟨v, hv, hadj⟩
                · exact ⟨hseed, Relation.ReflTransGen.refl⟩
                · obtain ⟨-, hpathv⟩ := hB v hv
                  exact ⟨hseed, hpathv.tail ⟨hokp, hadj⟩⟩
              have hstep : Canvas.floodLoop src target brush (fuel + 1) cur visited (p :: rest)
                  = Canvas.floodLoop src target brush fuel (cur.setPix p brush) (p :: visited)
                      (((neighbors p).filter
                          (fun q => decide (src.inBounds q) && decide (q ∉ p :: visited))).reverse
                        ++ rest) := by
                simp only [Canvas.floodLoop]
                rw [if_neg hpv, if_neg (not_not_intro hpc)]
              rw [hstep]
              have hpushmem : ∀ q,
                  q ∈ (neighbors p).filter
                      (fun q => decide (src.inBounds q) && decide (q ∉ p :: visited))
                    ↔ q ∈ neighbors p ∧ src.inBounds q ∧ q ∉ p :: visited := by
                intro q
                simp [List.mem_filter, Bool.and_eq_true, decide_eq_true_eq, and_assoc]
              have hstackmem : ∀ q,
                  q ∈ ((neighbors p).filter
                        (fun q => decide (src.inBounds q) && decide (q ∉ p :: visited))).reverse
                      ++ rest
                    ↔ (q ∈ neighbors p ∧ src.inBounds q ∧ q ∉ p :: visited) ∨ q ∈ rest := by
                intro q
                rw [List.mem_append, List.mem_reverse, hpushmem]
              refine ih (cur.setPix p brush) (p :: visited) _ ?_ ?_ ?_ ?_ ?_ ?_ ?_ ?_
              · -- the measure decreased
                have hlen4 : ((neighbors p).filter
                    (fun q => decide (src.inBounds q) && decide (q ∉ p :: visited))).length
                      ≤ 4 := by
                  have h := List.length_filter_le
                    (fun q => decide (src.inBounds q) && decide (q ∉ p :: visited))
                    (neighbors p)
                  simpa [neighbors] using h
                have hcard := card_unvisited_lt src visited p hpin hpv
                unfold loopMeasure at hfuel ⊢
                simp only [List.length_append, List.length_reverse, List.length_cons]
                  at hfuel ⊢
                omega
              · exact ⟨by rw [Bitmap.width_setPix, hG.1],
                       by rw [Bitmap.height_setPix, hG.2]⟩
              · intro q hq
                rcases (hstackmem q).1 hq with ⟨-, hb, -⟩ | hq'
                · exact hb
                · exact hA q (List.mem_cons_of_mem _ hq')
              · intro q hq
                rcases List.mem_cons.1 hq with rfl | hq'
                · exact hcompp
                · exact hB q hq'
              · intro q hq
                rcases (hstackmem q).1 hq with ⟨hn, -, -⟩ | hq'
                · exact Or.inr ⟨p, List.mem_cons_self p visited, hn⟩
                · rcases hC q (List.mem_cons_of_mem _ hq') with rfl | ⟨v, hv, hadj⟩
                  · exact Or.inl rfl
                  · exact Or.inr ⟨v, List.mem_cons_of_mem _ hv, hadj⟩
              · intro v hv q hq hok
                rcases List.mem_cons.1 hv with rfl | hv'
                · by_cases hqv : q ∈ v :: visited
                  · exact Or.inl hqv
                  · exact Or.inr ((hstackmem q).2 (Or.inl ⟨hq, hok.1, hqv⟩))
                · rcases hD v hv' q hq hok with h | h
                  · exact Or.inl (List.mem_cons_of_mem _ h)
                  · rcases List.mem_cons.1 h with rfl | h'
                    · exact Or.inl (List.mem_cons_self q visited)
                    · exact Or.inr ((hstackmem q).2 (Or.inr h'))
              · rcases hE with h | h
                · exact Or.inl (List.mem_cons_of_mem _ h)
                · rcases List.mem_cons.1 h with rfl | h'
                  · exact Or.inl (List.mem_cons_self seed visited)
                  · exact Or.inr ((hstackmem seed).2 (Or.inr h'))
              · intro q
                constructor
                · intro hq
                  rcases List.mem_cons.1 hq with rfl | hq'
                  · exact Bitmap.pix_setPix_self cur q brush
                      ((Bitmap.inBounds_congr hG.1 hG.2 q).2 hpin)
                  · have hne : q ≠ p := fun h => hpv (h ▸ hq')
                    rw [Bitmap.pix_setPix_ne cur p brush q hne]
                    exact (hF q).1 hq'
                · intro hq
                  have hne : q ≠ p := fun h => hq (h ▸ List.mem_cons_self p visited)
                  rw [Bitmap.pix_setPix_ne cur p brush q hne]
                  exact (hF q).2 (fun h => hq (List.mem_cons_of_mem _ h))
            · -- popped pixel has the wrong color: skip it
              have hstep : Canvas.floodLoop src target brush (fuel + 1) cur visited (p :: rest)
                  = Canvas.floodLoop src target brush fuel cur visited rest := by
                simp only [Canvas.floodLoop]
                rw [if_neg hpv, if_pos hpc]
              rw [hstep]
              refine ih cur visited rest ?_ hG
                (fun q hq => hA q (List.mem_cons_of_mem _ hq)) hB
                (fun q hq => hC q (List.mem_cons_of_mem _ hq)) ?_ ?_ hF
              · unfold loopMeasure at hfuel ⊢
                simp only [List.length_cons] at hfuel
                omega
              · intro v hv q hq hok
                rcases hD v hv q hq hok with h | h
                · exact Or.inl h
                · rcases List.mem_cons.1 h with rfl | h'
                  · exact absurd hok.2 hpc
                  · exact Or.inr h'
              · rcases hE with h | h
                · exact Or.inl h
                · rcases List.mem_cons.1 h with rfl | h'
                  · exact absurd hseed.2 hpc
                  · exact Or.inr h'

/-- C2: for every in-bounds seed whose color differs from the brush color,
flood fill paints with the brush color exactly the maximal 4-connected
component of seed-colored pixels containing the seed (judged against the
snapshot taken at fill start), and leaves every other pixel unchanged. -/
theorem fill_at_paints_component (s : Canvas) (seed : Pt)
    (hb : s.image.inBounds seed)
    (hne : s.image.pix seed ≠ s.brush_color) :
    ∀ p, (InComponent s.image (s.image.pix seed) seed p →
            (s.fill_at seed).image.pix p = s.brush_color) ∧
         (¬ InComponent s.image (s.image.pix seed) seed p →
            (s.fill_at seed).image.pix p = s.image.pix p) := by
  have hseed : okPix s.image (s.image.pix seed) seed := ⟨hb, rfl⟩
  have hresult : (s.fill_at seed).image
      = Canvas.floodLoop s.image (s.image.pix seed) s.brush_color
          (1 + 5 * (s.image.width * s.image.height)) s.image [] [seed] := by
    unfold Canvas.fill_at
    dsimp only
    rw [if_neg (not_not_intro hb), if_neg hne]
  rw [hresult]
  refine floodLoop_spec s.image (s.image.pix seed) s.brush_color seed hseed
    (1 + 5 * (s.image.width * s.image.height)) s.image [] [seed]
    ?_ ⟨rfl, rfl⟩ ?_ ?_ ?_ ?_ ?_ ?_
  · unfold loopMeasure
    have hc := card_ptsFinset_le s.image
    have hfil : ((ptsFinset s.image).filter (fun q => q ∉ ([] : List Pt))).card
        = (ptsFinset s.image).card := by
      simp
    simp only [List.length_cons, List.length_nil, hfil]
    omega
  · intro q hq
    rcases List.mem_cons.1 hq with rfl | h
    · exact hb
    · simp at h
  · intro q hq
    simp at hq
  · intro q hq
    rcases List.mem_cons.1 hq with rfl | h
    · exact Or.inl rfl
    · simp at h
  · intro v hv
    simp at hv
  · exact Or.inr (List.mem_cons_self seed [])
  · intro q
    exact ⟨fun h => by simp at h, fun _ => rfl⟩

/-- C2 witness: flood fill on the one-pixel white canvas with a black brush:
the hypotheses hold at seed `(0, 0)` and the theorem applies there. -/
theorem fill_at_paints_component_witness :
    canvas1.image.inBounds ((0 : Int), (0 : Int)) ∧
    canvas1.image.pix ((0 : Int), (0 : Int)) ≠ canvas1.brush_color ∧
    (InComponent canvas1.image (canvas1.image.pix ((0 : Int), (0 : Int)))
        ((0 : Int), (0 : Int)) ((0 : Int), (0 : Int)) →
      (canvas1.fill_at ((0 : Int), (0 : Int))).image.pix ((0 : Int), (0 : Int))
        = canvas1.brush_color) ∧
    (¬ InComponent canvas1.image (canvas1.image.pix ((0 : Int), (0 : Int)))
        ((0 : Int), (0 : Int)) ((0 : Int), (0 : Int)) →
      (canvas1.fill_at ((0 : Int), (0 : Int))).image.pix ((0 : Int), (0 : Int))
        = canvas1.image.pix ((0 : Int), (0 : Int))) :=
  ⟨by decide, by decide,
   (fill_at_paints_component canvas1 ((0 : Int), (0 : Int)) (by decide) (by decide)
      ((0 : Int), (0 : Int))).1,
   (fill_at_paints_component canvas1 ((0 : Int), (0 : Int)) (by decide) (by decide)
      ((0 : Int), (0 : Int))).2⟩

/-! ## Gradient-fill endpoint lemmas (C8) -/

/-- Every pixel discovered by the gradient region worklist is in bounds (the
loop checks bounds before marking). -/
theorem gradLoop_mem_inBounds (src : Bitmap) (target : Color) :
    ∀ (fuel : Nat) (visited stack : List Pt),
      (∀ q ∈ visited, src.inBounds q) →
      ∀ q ∈ Canvas.gradLoop src target fuel visited stack, src.inBounds q := by
  intro fuel
  induction fuel with
  | zero =>
      intro visited stack hv
      simpa [Canvas.gradLoop] using hv
  | succ fuel ih =>
      intro visited stack hv
      cases stack with
      | nil => simpa [Canvas.gradLoop] using hv
      | cons p rest =>
          by_cases h1 : ¬ src.inBounds p ∨ p ∈ visited
          · have hstep : Canvas.gradLoop src target (fuel + 1) visited (p :: rest)
                = Canvas.gradLoop src target fuel visited rest := by
              simp only [Canvas.gradLoop]
              rw [if_pos h1]
            rw [hstep]
            exact ih visited rest hv
          · by_cases h2 : src.pix p = target
            · have hstep : Canvas.gradLoop src target (fuel + 1) visited (p :: rest)
                  = Canvas.gradLoop src target fuel (p :: visited)
                      ((neighbors p).reverse ++ rest) := by
                simp only [Canvas.gradLoop]
                rw [if_neg h1, if_neg (not_not_intro h2)]
              rw [hstep]
              refine ih (p :: visited) _ ?_
              intro q hq
              rcases List.mem_cons.1 hq with rfl | hq'
              · push_neg at h1
                exact h1.1
              · exact hv q hq'
            · have hstep : Canvas.gradLoop src target (fuel + 1) visited (p :: rest)
                  = Canvas.gradLoop src target fuel visited rest := by
                simp only [Canvas.gradLoop]
                rw [if_neg h1, if_pos h2]
              rw [hstep]
              exact ih visited rest hv

/-- Painting a list of in-bounds pixels, each with a color depending only on
its own coordinate, changes exactly those pixels. -/
theorem pix_paintFold (f : Pt → Color) :
    ∀ (l : List Pt) (src : Bitmap), (∀ q ∈ l, src.inBounds q) →
      ∀ p, (l.foldl (fun img q => img.setPix q (f q)) src).pix p
        = if p ∈ l then f p else src.pix p := by
  intro l
  induction l with
  | nil =>
      intro src h p
      simp
  | cons a t ih =>
      intro src h p
      simp only [List.foldl_cons]
      rw [ih (src.setPix a (f a))
        (fun q hq => (Bitmap.inBounds_setPix src a (f a) q).2
          (h q (List.mem_cons_of_mem _ hq))) p]
      by_cases hpt : p ∈ t
      · rw [if_pos hpt, if_pos (List.mem_cons_of_mem _ hpt)]
      · by_cases hpa : p = a
        · subst hpa
          rw [if_neg hpt, if_pos (List.mem_cons_self p t)]
          exact Bitmap.pix_setPix_self src p (f p) (h p (List.mem_cons_self p t))
        · rw [if_neg hpt, if_neg (by simp [hpa, hpt])]
          exact Bitmap.pix_setPix_ne src a (f a) p hpa

/-- The gradient color at the gradient's own start point is exactly the
start color: the projection parameter is 0 there. -/
theorem gradientColorAt_tl (c0 c1 : Color) (tl br : Pt) :
    Canvas.gradientColorAt c0 c1 tl br tl = c0 := by
  unfold Canvas.gradientColorAt Canvas.lerpChan
  dsimp only
  have h0 : (((tl.1 - tl.1) * (br.1 - tl.1) + (tl.2 - tl.2) * (br.2 - tl.2) : Int) : ℚ)
      = 0 := by
    push_cast
    ring
  rw [h0, zero_div]
  norm_num

/-- The gradient color at the gradient's own end point is exactly the end
color when the two endpoints differ: the projection parameter is 1 there. -/
theorem gradientColorAt_br (c0 c1 : Color) (tl br : Pt) (hne : tl ≠ br) :
    Canvas.gradientColorAt c0 c1 tl br br = c1 := by
  unfold Canvas.gradientColorAt Canvas.lerpChan
  dsimp only
  have hden : ((br.1 - tl.1) * (br.1 - tl.1) + (br.2 - tl.2) * (br.2 - tl.2) : Int) ≠ 0 := by
    intro h
    apply hne
    have hx : br.1 - tl.1 = 0 := by nlinarith [mul_self_nonneg (br.1 - tl.1), mul_self_nonneg (br.2 - tl.2)]
    have hy : br.2 - tl.2 = 0 := by nlinarith [mul_self_nonneg (br.1 - tl.1), mul_self_nonneg (br.2 - tl.2)]
    have : br.1 = tl.1 := by omega
    have : br.2 = tl.2 := by omega
    exact Prod.ext (by omega) (by omega)
  have hq : (((br.1 - tl.1) * (br.1 - tl.1) + (br.2 - tl.2) * (br.2 - tl.2) : Int) : ℚ)
      ≠ 0 := by
    exact_mod_cast hden
  rw [div_self hq]
  norm_num

/-- C8, amended: for an in-bounds seed whose color differs from both
gradient endpoint colors, after the gradient fill the pixel at the
discovered region's bounding-box top-left corner equals
`gradient_start_color` and the pixel at its bounding-box bottom-right corner
equals `gradient_end_color` — provided each corner itself belongs to the
region (the region is only guaranteed to meet, not contain, its bounding-box
corners) and the two corners are distinct (a one-pixel box cannot carry both
endpoint colors). -/
theorem gradient_fill_endpoints (s : Canvas) (seed : Pt)
    (hb : s.image.inBounds seed)
    (h1 : s.image.pix seed ≠ s.gradient_start_color)
    (h2 : s.image.pix seed ≠ s.gradient_end_color)
    (htl : Canvas.bboxTL (Canvas.gradient_region s.image seed)
             ∈ Canvas.gradient_region s.image seed)
    (hbr : Canvas.bboxBR (Canvas.gradient_region s.image seed)
             ∈ Canvas.gradient_region s.image seed)
    (hd : Canvas.bboxTL (Canvas.gradient_region s.image seed)
             ≠ Canvas.bboxBR (Canvas.gradient_region s.image seed)) :
    (s.fill_gradient seed).image.pix
        (Canvas.bboxTL (Canvas.gradient_region s.image seed))
      = s.gradient_start_color ∧
    (s.fill_gradient seed).image.pix
        (Canvas.bboxBR (Canvas.gradient_region s.image seed))
      = s.gradient_end_color := by
  have hreg : Canvas.gradient_region s.image seed ≠ [] := List.ne_nil_of_mem htl
  have hbounds : ∀ q ∈ Canvas.gradient_region s.image seed, s.image.inBounds q :=
    gradLoop_mem_inBounds s.image (s.image.pix seed) _ [] [seed]
      (by intro q hq; simp at hq)
  have hresult : (s.fill_gradient seed).image
      = (Canvas.gradient_region s.image seed).foldl
          (fun img q => img.setPix q
            (Canvas.gradientColorAt s.gradient_start_color s.gradient_end_color
              (Canvas.bboxTL (Canvas.gradient_region s.image seed))
              (Canvas.bboxBR (Canvas.gradient_region s.image seed)) q))
          s.image := by
    unfold Canvas.fill_gradient
    dsimp only
    rw [if_neg (not_not_intro hb), if_neg (by push_neg; exact ⟨h1, h2⟩), if_neg hreg]
  rw [hresult,
    pix_paintFold _ (Canvas.gradient_region s.image seed) s.image hbounds,
    pix_paintFold _ (Canvas.gradient_region s.image seed) s.image hbounds,
    if_pos htl, if_pos hbr]
  exact ⟨gradientColorAt_tl s.gradient_start_color s.gradient_end_color _ _,
         gradientColorAt_br s.gradient_start_color s.gradient_end_color _ _ hd⟩

/-- C8 witness: gradient fill of the all-white 2×1 strip seeded at `(0, 0)`:
the region is the whole strip, both bounding-box corners lie in the region
and differ, so the left pixel becomes red and the right pixel blue. -/
theorem gradient_fill_endpoints_witness :
    canvas2x1.image.inBounds ((0 : Int), (0 : Int)) ∧
    canvas2x1.image.pix ((0 : Int), (0 : Int)) ≠ canvas2x1.gradient_start_color ∧
    canvas2x1.image.pix ((0 : Int), (0 : Int)) ≠ canvas2x1.gradient_end_color ∧
    Canvas.bboxTL (Canvas.gradient_region canvas2x1.image ((0 : Int), (0 : Int)))
      ∈ Canvas.gradient_region canvas2x1.image ((0 : Int), (0 : Int)) ∧
    Canvas.bboxBR (Canvas.gradient_region canvas2x1.image ((0 : Int), (0 : Int)))
      ∈ Canvas.gradient_region canvas2x1.image ((0 : Int), (0 : Int)) ∧
    Canvas.bboxTL (Canvas.gradient_region canvas2x1.image ((0 : Int), (0 : Int)))
      ≠ Canvas.bboxBR (Canvas.gradient_region canvas2x1.image ((0 : Int), (0 : Int))) ∧
    (canvas2x1.fill_gradient ((0 : Int), (0 : Int))).image.pix
        (Canvas.bboxTL (Canvas.gradient_region canvas2x1.image ((0 : Int), (0 : Int))))
      = canvas2x1.gradient_start_color ∧
    (canvas2x1.fill_gradient ((0 : Int), (0 : Int))).image.pix
        (Canvas.bboxBR (Canvas.gradient_region canvas2x1.image ((0 : Int), (0 : Int))))
      = canvas2x1.gradient_end_color :=
  ⟨by decide, by decide, by decide, by decide, by decide, by decide,
   (gradient_fill_endpoints canvas2x1 ((0 : Int), (0 : Int)) (by decide) (by decide)
      (by decide) (by decide) (by decide) (by decide)).1,
   (gradient_fill_endpoints canvas2x1 ((0 : Int), (0 : Int)) (by decide) (by decide)
      (by decide) (by decide) (by decide) (by decide)).2⟩

/-- C8, counterexample to the claim as stated: on the 2×2 canvas whose white
region is L-shaped (top-left pixel black), the region's bounding-box
top-left corner is `(0, 0)`, the seed `(1, 1)` satisfies all the claim's
hypotheses, yet after the gradient fill the pixel at the bounding-box
top-left corner is still black, not `gradient_start_color`. -/
theorem gradient_fill_endpoints_cex :
    Canvas.bboxTL (Canvas.gradient_region canvasL.image ((1 : Int), (1 : Int)))
        = ((0 : Int), (0 : Int)) ∧
    canvasL.image.inBounds ((1 : Int), (1 : Int)) ∧
    canvasL.image.pix ((1 : Int), (1 : Int)) ≠ canvasL.gradient_start_color ∧
    canvasL.image.pix ((1 : Int), (1 : Int)) ≠ canvasL.gradient_end_color ∧
    (canvasL.fill_gradient ((1 : Int), (1 : Int))).image.pix ((0 : Int), (0 : Int))
        ≠ canvasL.gradient_start_color := by
  refine ⟨by decide, by decide, by decide, by decide, ?_⟩
  have hbounds : ∀ q ∈ Canvas.gradient_region canvasL.image ((1 : Int), (1 : Int)),
      canvasL.image.inBounds q := by decide
  have hreg : Canvas.gradient_region canvasL.image ((1 : Int), (1 : Int)) ≠ [] := by
    decide
  have hresult : (canvasL.fill_gradient ((1 : Int), (1 : Int))).image
      = (Canvas.gradient_region canvasL.image ((1 : Int), (1 : Int))).foldl
          (fun img q => img.setPix q
            (Canvas.gradientColorAt canvasL.gradient_start_color
              canvasL.gradient_end_color
              (Canvas.bboxTL (Canvas.gradient_region canvasL.image ((1 : Int), (1 : Int))))
              (Canvas.bboxBR (Canvas.gradient_region canvasL.image ((1 : Int), (1 : Int))))
              q))
          canvasL.image := by
    unfold Canvas.fill_gradient
    dsimp only
    rw [if_neg (by decide), if_neg (by decide), if_neg hreg]
  rw [hresult,
    pix_paintFold _ (Canvas.gradient_region canvasL.image ((1 : Int), (1 : Int)))
      canvasL.image hbounds,
    if_neg (by decide)]
  decide
